import Mathlib

/-!
# Verification of the Route 33 Guide data pipeline

A shallow embedding, in Lean 4, of the core data-transformation logic of the
Route 33 Guide repository (area classification, CSV ingestion, completion
tracking, search, export), together with theorems settling the frozen claims
about its natural-language specification.

Conventions of the embedding:
* JavaScript strings are Lean `String`s; a possibly-`undefined`/`null` value is
  an `Option String` and `safeString` mirrors the source's helper of the same
  name (`String(x).trim()` with `""` for `undefined`/`null`).
* JavaScript plain objects used as key/value stores of booleans (the
  `checkedItems` map) are total functions `String → Option Bool`; `none` is an
  absent key, `some b` a stored value, and JS truthiness of a read is
  `(· |>.getD false)`.
* JavaScript arrays are Lean lists.  `Array.prototype.sort` with comparator
  `a.priority - b.priority` is a stable ascending sort (guaranteed by the
  ECMAScript specification); it is embedded as a stable insertion sort.
* Where object identity (aliasing) is observable — the shallow copy made by
  `exportAreaConfig` — rule objects live in an explicit heap (`List AreaRule`)
  and the module's rule array is a list of references (`List Nat`).
-/

namespace Route33

/-- JS whitespace for trimming purposes (the characters that occur in this
repository's data; the embedding restricts `trim`/`toLowerCase` to ASCII). -/
def jsWhitespace (c : Char) : Bool :=
  c = ' ' || c = '\t' || c = '\n' || c = '\r'

/-- JS `String.prototype.trim` (ASCII whitespace). -/
def jsTrim (s : String) : String :=
  String.mk (((s.toList.dropWhile jsWhitespace).reverse.dropWhile jsWhitespace).reverse)

/-- ASCII lowercasing of one character. -/
def charLower (c : Char) : Char :=
  if 65 ≤ c.toNat && c.toNat ≤ 90 then Char.ofNat (c.toNat + 32) else c

/-- JS `String.prototype.toLowerCase` (ASCII). -/
def jsToLower (s : String) : String :=
  String.mk (s.toList.map charLower)

/-- `safeString` from the source: `(str !== undefined && str !== null) ?
String(str).trim() : ""`.  A `none` argument is JS `undefined`/`null`. -/
def safeString (s : Option String) : String :=
  match s with
  | none => ""
  | some str => jsTrim str

/-- JS `String.prototype.includes` on lists of characters: `needle` occurs
contiguously in the haystack. -/
def listIncludes (needle : List Char) : List Char → Bool
  | [] => needle.isEmpty
  | c :: rest => needle.isPrefixOf (c :: rest) || listIncludes needle rest

/-- JS `hay.includes(needle)` (substring test). -/
def jsIncludes (hay needle : String) : Bool :=
  listIncludes needle.toList hay.toList

/-- JS truthiness of a value read from a `checkedItems`-style object:
absent (`none`) and stored `false` are falsy. -/
def truthy (v : Option Bool) : Bool :=
  v.getD false

/-- JS `parseInt`-with-default from the source's `safeNumber`: empty or
non-numeric input gives `0`; otherwise the integer denoted by the leading
digits (with optional sign), as `parseInt` reads them. -/
def safeNumber (s : Option String) : Int :=
  let (sign, digits) :=
    match (safeString s).toList with
    | '-' :: rest => ((-1 : Int), rest)
    | '+' :: rest => ((1 : Int), rest)
    | l => ((1 : Int), l)
  let ds := digits.takeWhile Char.isDigit
  if ds.isEmpty then 0
  else sign * (ds.foldl (fun n c => 10 * n + (c.toNat - 48)) 0 : Nat)

/-! ## AreaClassifier (area-classifier.js) -/

/-- An area classification rule, as stored in the module's
`areaClassifications` array. -/
structure AreaRule where
  id : String
  name : String
  patterns : List String
  priority : Int
  color : String
  icon : String
deriving DecidableEq, Repr

/-- The built-in default rule list (five geographic rules plus the `"other"`
catch-all), as seeded at startup and by `resetToDefaults`. -/
def defaultAreas : List AreaRule :=
  [ ⟨"shasta-ortho", "Shasta Ortho", ["liberty"], 10, "#60A5FA", "building-2"⟩,
    ⟨"bechelli-lane", "Bechelli Lane", ["bechelli"], 20, "#34D399", "map-pin"⟩,
    ⟨"downtown", "Downtown", ["cypress", "hartnell"], 30, "#F87171", "building"⟩,
    ⟨"churn-creek", "Churn Creek", ["churn creek"], 40, "#FBBF24", "map-pin"⟩,
    ⟨"south-redding", "South Redding", ["bonnyview"], 50, "#A78BFA", "map-pin"⟩,
    ⟨"other", "Other", [], 1000, "#9CA3AF", "map"⟩ ]

/-- Insert a rule into a list already sorted by ascending priority, after
every rule of strictly smaller priority and before every rule of greater or
equal priority.  This is the single step of the stable ascending sort that
embeds `[...areaClassifications].sort((a, b) => a.priority - b.priority)`. -/
def insertRule (x : AreaRule) : List AreaRule → List AreaRule
  | [] => [x]
  | y :: ys => if y.priority < x.priority then y :: insertRule x ys else x :: y :: ys

/-- `sortedAreas()` from the source: the rule list sorted ascending by
`priority`; equal priorities keep their relative order (JS `Array.prototype.sort`
is stable). -/
def sortedAreas (rules : List AreaRule) : List AreaRule :=
  rules.foldr insertRule []

/-- Whether `classifyAddress`'s normalized address matches a rule:
`area.patterns.some(pattern => safeAddr.includes(pattern))`. -/
def ruleMatches (safeAddr : String) (r : AreaRule) : Bool :=
  r.patterns.any (fun pattern => jsIncludes safeAddr pattern)

/-- `getAreaById` from the source. -/
def getAreaById (rules : List AreaRule) (i : String) : Option AreaRule :=
  rules.find? (fun area => area.id == i)

/-- `classifyAddress(address)` from the source: normalize the address
(`safeString(address).toLowerCase()`), scan the rules in ascending-priority
order and return the first match; with no match, fall back to
`getAreaById("other") || areaClassifications[areaClassifications.length - 1]`
(`none` embeds the JS `undefined` produced when the rule list is empty). -/
def classifyAddress (rules : List AreaRule) (address : Option String) : Option AreaRule :=
  let safeAddr := jsToLower (safeString address)
  match (sortedAreas rules).find? (fun area => ruleMatches safeAddr area) with
  | some area => some area
  | none =>
      match getAreaById rules "other" with
      | some area => some area
      | none => rules.getLast?

/-- An entry of the array handed to `importAreaConfig`.  Fields that the JS
validation probes for existence are embedded so that absence is expressible:
a missing or empty `id`/`name` is `""` (both are JS-falsy), and `patterns` is
`none` when the entry's `patterns` is not an array. -/
structure ImportEntry where
  id : String
  name : String
  patterns : Option (List String)
  priority : Int
  color : String
  icon : String
deriving DecidableEq, Repr

/-- The rule object an accepted import entry denotes (its validated
`patterns` array unwrapped). -/
def ImportEntry.toRule (e : ImportEntry) : AreaRule :=
  ⟨e.id, e.name, e.patterns.getD [], e.priority, e.color, e.icon⟩

/-- `importAreaConfig(configArray)` from the source: reject a non-array
(`none` argument); reject when some entry fails
`area.id && area.name && Array.isArray(area.patterns)`; reject when no entry
has `id === "other"`; otherwise replace the whole rule list.  Returns the JS
boolean result paired with the rule list afterwards. -/
def importAreaConfig (rules : List AreaRule) (configArray : Option (List ImportEntry)) :
    Bool × List AreaRule :=
  match configArray with
  | none => (false, rules)
  | some arr =>
      if arr.all (fun area => area.id != "" && area.name != "" && area.patterns.isSome) then
        if arr.any (fun area => area.id == "other") then
          (true, arr.map ImportEntry.toRule)
        else
          (false, rules)
      else
        (false, rules)

/-! ## Aliasing model for `exportAreaConfig` (C9)

The source keeps its rule objects in a module-level array; `exportAreaConfig`
returns `[...areaClassifications]`, a fresh array holding the *same* rule
objects.  To make the sharing observable, rule objects live in an explicit
heap and the module's array is a list of references into it. -/

/-- The AreaClassifier module's state with explicit object identity:
`heap` holds the rule objects, `rules` is the `areaClassifications` array as a
list of references into `heap`. -/
structure ClassifierState where
  heap : List AreaRule
  rules : List Nat
deriving DecidableEq, Repr

/-- Read a rule object through a reference (all reachable references of a
well-formed state are in range; the default is never consulted there). -/
def derefRule (st : ClassifierState) (r : Nat) : AreaRule :=
  (st.heap.get? r).getD ⟨"other", "Other", [], 1000, "#9CA3AF", "map"⟩

/-- The rule list the classifier actually reads: its array, dereferenced. -/
def currentRules (st : ClassifierState) : List AreaRule :=
  st.rules.map (derefRule st)

/-- `classifyAddress` acting on the stateful module. -/
def classifyAddressS (st : ClassifierState) (address : Option String) : Option AreaRule :=
  classifyAddress (currentRules st) address

/-- `exportAreaConfig()` from the source: `[...areaClassifications]` — a new
array containing the same rule object references. -/
def exportAreaConfig (st : ClassifierState) : List Nat :=
  st.rules

/-- In-place mutation of the rule object behind reference `r` (what a caller
does by assigning to a field, or pushing to the `patterns` array, of an object
obtained from `exportAreaConfig`). -/
def mutateRule (st : ClassifierState) (r : Nat) (f : AreaRule → AreaRule) : ClassifierState :=
  { st with heap := st.heap.set r (f (derefRule st r)) }

/-- The module's startup state: the six default rules, each a distinct
object. -/
def defaultClassifierState : ClassifierState :=
  { heap := defaultAreas, rules := [0, 1, 2, 3, 4, 5] }

/-! ## Route data model (data-handler.js / optimized-data-processor.js) -/

/-- An item owned by a customer, as built during ingestion. -/
structure Item where
  itemId : String
  description : String
  quantity : Int
  completed : Bool
deriving DecidableEq, Repr

/-- A customer entry of `routeData` / `customers`. -/
structure Customer where
  customerNumber : String
  accountName : String
  address : String
  area : String
  items : List Item
  hasItems : Bool
  completed : Bool
deriving DecidableEq, Repr

/-- The sparse `checkedItems` object: a JS plain object from composite keys to
stored booleans (`none` = key absent). -/
abbrev CheckedMap : Type := String → Option Bool

/-- Update (`some v`) or delete (`none`) one key of a `CheckedMap`. -/
def setKey (m : CheckedMap) (k : String) (v : Option Bool) : CheckedMap :=
  fun k' => if k' = k then v else m k'

/-- The composite key of an item of a customer:
`` `${customer.customerNumber}-${item.itemId}` ``. -/
def itemKey (c : Customer) (it : Item) : String :=
  c.customerNumber ++ "-" ++ it.itemId

/-- The per-customer completion check performed inside `getCompletionStats`
(data-handler.js) and `calculateCompletionStatus`
(optimized-data-processor.js): with items, the loop computes
`allItemsCompleted && hasCheckedItems` (every item key truthy, and at least
one); without items, it consults the bare `customerNumber` key. -/
def customerCompleted (m : CheckedMap) (c : Customer) : Bool :=
  if c.items.length > 0 then
    c.items.all (fun it => truthy (m (itemKey c it)))
      && c.items.any (fun it => truthy (m (itemKey c it)))
  else
    truthy (m c.customerNumber)

/-- The record returned by `getCompletionStats`. -/
structure CompletionStats where
  totalStops : Nat
  completedStops : Nat
  totalItems : Nat
  completedItems : Nat
  stopsProgress : Nat
  itemsProgress : Nat
deriving DecidableEq, Repr

/-- JS `Math.round(a / b * 100)` for natural counts `a ≤ b`, `b > 0`:
round-half-up of `100 * a / b`. -/
def roundPct (a b : Nat) : Nat :=
  (200 * a + b) / (2 * b)

/-- `getCompletionStats()` from data-handler.js: one pass over `routeData`
counting stops, completed stops (per `customerCompleted`), items and completed
items, then guarded rounded percentages. -/
def getCompletionStats (routeData : List Customer) (m : CheckedMap) : CompletionStats :=
  let totalStops := routeData.length
  let completedStops := (routeData.filter (fun c => customerCompleted m c)).length
  let totalItems := (routeData.map (fun c => c.items.length)).sum
  let completedItems :=
    (routeData.map (fun c => (c.items.filter (fun it => truthy (m (itemKey c it)))).length)).sum
  { totalStops := totalStops
    completedStops := completedStops
    totalItems := totalItems
    completedItems := completedItems
    stopsProgress := if totalStops > 0 then roundPct completedStops totalStops else 0
    itemsProgress := if totalItems > 0 then roundPct completedItems totalItems else 0 }

/-- JS truthiness of the `itemId` argument of `toggleItemCheck` (`null` /
`undefined` / `""` select the bare customer key). -/
def truthyArg (s : Option String) : Bool :=
  match s with
  | none => false
  | some str => str != ""

/-- The composite key `toggleItemCheck` addresses:
`` itemId ? `${customerNumber}-${itemId}` : customerNumber ``. -/
def toggleKey (customerNumber : String) (itemId : Option String) : String :=
  if truthyArg itemId then customerNumber ++ "-" ++ itemId.getD "" else customerNumber

/-- The `checkedItems` mutation performed by `toggleItemCheck` from
data-handler.js: no-op on a falsy `customerNumber`; otherwise set the
addressed key to `true` or delete it.  (The source then persists and returns
`getCompletionStats()`, which does not further change the map.) -/
def toggleItemCheck (customerNumber : String) (itemId : Option String) (checked : Bool)
    (m : CheckedMap) : CheckedMap :=
  if customerNumber = "" then m
  else
    let key := toggleKey customerNumber itemId
    if checked then setKey m key (some true) else setKey m key none

/-- The `checkedItems` reconciliation performed by `importCSV` from
data-handler.js after rebuilding `routeData`: starting from an empty object,
copy `checkedItems[customer.customerNumber]` for every customer of the new
model whose bare key is truthy in the old map. -/
def reconcileCheckedItems (newCustomers : List Customer) (old : CheckedMap) : CheckedMap :=
  newCustomers.foldl
    (fun acc c =>
      if truthy (old c.customerNumber) then setKey acc c.customerNumber (old c.customerNumber)
      else acc)
    (fun _ => none)

/-! ## Search (data-handler.js `searchCustomers`,
optimized-data-processor.js `searchItems`) -/

/-- The per-customer predicate of `searchCustomers` (data-handler.js), for an
already lowercased non-empty `term`: account name, address or customer number
matches, else (when the customer has items) some item's description or id
matches. -/
def searchCustomersPred (term : String) (c : Customer) : Bool :=
  if jsIncludes (jsToLower (safeString (some c.accountName))) term
      || jsIncludes (jsToLower (safeString (some c.address))) term
      || jsIncludes (safeString (some c.customerNumber)) term then
    true
  else if c.items.length > 0 then
    c.items.any (fun it =>
      jsIncludes (jsToLower (safeString (some it.description))) term
        || jsIncludes (safeString (some it.itemId)) term)
  else
    false

/-- `searchCustomers(searchTerm)` from data-handler.js: a falsy or
whitespace-only term returns `routeData` itself; otherwise `routeData.filter`
with `searchCustomersPred`. -/
def searchCustomers (routeData : List Customer) (searchTerm : Option String) : List Customer :=
  if safeString searchTerm = "" then routeData
  else routeData.filter (searchCustomersPred (jsToLower (safeString searchTerm)))

/-- JS `Map.prototype.set` on an insertion-ordered association list: an
existing key keeps its position and gets the new value, a new key is appended. -/
def mapSet (m : List (String × Customer)) (k : String) (v : Customer) :
    List (String × Customer) :=
  match m with
  | [] => [(k, v)]
  | (k', v') :: rest => if k' = k then (k, v) :: rest else (k', v') :: mapSet rest k v

/-- The direct-attribute match of `searchItems` (account name, address,
customer number, area), for a lowercased non-empty `term`. -/
def searchItemsDirect (term : String) (c : Customer) : Bool :=
  jsIncludes (jsToLower (safeString (some c.accountName))) term
    || jsIncludes (jsToLower (safeString (some c.address))) term
    || jsIncludes (safeString (some c.customerNumber)) term
    || jsIncludes (jsToLower (safeString (some c.area))) term

/-- The item-level match of `searchItems`: some owned item's description or
id contains the term. -/
def searchItemsByItem (term : String) (c : Customer) : Bool :=
  c.items.any (fun it =>
    jsIncludes (jsToLower (safeString (some it.description))) term
      || jsIncludes (safeString (some it.itemId)) term)

/-- `searchItems(processedData, searchTerm)` from
optimized-data-processor.js: an empty normalized term returns `customers`;
otherwise two passes over `customers` fill a JS `Map` keyed by customer
number — first the direct-attribute matches, then the item-level matches —
and the result is the `Map`'s values in insertion order. -/
def searchItems (customers : List Customer) (searchTerm : Option String) : List Customer :=
  let term := jsToLower (safeString searchTerm)
  if term = "" then customers
  else
    let pass1 := customers.foldl
      (fun acc c => if searchItemsDirect term c then mapSet acc c.customerNumber c else acc) []
    let pass2 := customers.foldl
      (fun acc c => if searchItemsByItem term c then mapSet acc c.customerNumber c else acc) pass1
    pass2.map (fun kv => kv.2)

/-! ## Export projection (export-utils.js `exportToCSV`) -/

/-- One flat record of the CSV export.  `Quantity` is the JS value pushed by
the source: an item's numeric quantity, or the literal empty string (`none`)
on the no-items row. -/
structure ExportRow where
  CustomerNumber : String
  AccountName : String
  Address : String
  Area : String
  ItemID : String
  Description : String
  Quantity : Option Int
  Completed : String
  CompletedDate : String
deriving DecidableEq, Repr

/-- The data rows `exportToCSV(routeData, checkedItems)` pushes before
serialization: per customer, one row per item (completion from the item's
composite key) when it has items, else a single row with blank `ItemID`,
`Description: "No items"` and blank `Quantity` (completion from the bare
key).  `today` stands for `new Date().toLocaleDateString()`. -/
def exportToCSV (routeData : List Customer) (m : CheckedMap) (today : String) :
    List ExportRow :=
  routeData.foldl
    (fun acc c =>
      if c.items.length > 0 then
        acc ++ c.items.map (fun it =>
          let isCompleted := truthy (m (itemKey c it))
          { CustomerNumber := c.customerNumber
            AccountName := c.accountName
            Address := c.address
            Area := c.area
            ItemID := it.itemId
            Description := it.description
            Quantity := some it.quantity
            Completed := if isCompleted then "Yes" else "No"
            CompletedDate := if isCompleted then today else "" })
      else
        let isCompleted := truthy (m c.customerNumber)
        acc ++ [{ CustomerNumber := c.customerNumber
                  AccountName := c.accountName
                  Address := c.address
                  Area := c.area
                  ItemID := ""
                  Description := "No items"
                  Quantity := none
                  Completed := if isCompleted then "Yes" else "No"
                  CompletedDate := if isCompleted then today else "" }])
    []

/-! ## Ingestion (csv-processor.js `analyzeCSVData`,
optimized-data-processor.js `processCSVData`) -/

/-- A parsed CSV row as the ingestion functions see it: a flat record whose
fields may be absent (`none` = missing column / `undefined`). -/
structure Row where
  CustomerNumber : Option String
  AccountName : Option String
  Address : Option String
  ItemID : Option String
  Description : Option String
  Quantity : Option String
deriving DecidableEq, Repr

/-- The address→area fallback chain shared by data-handler.js and
optimized-data-processor.js (and csv-processor.js's `determineArea` with its
default configuration): first match among `liberty`, `bechelli`,
`cypress`/`hartnell`, `churn creek`, `bonnyview`, else `"Other"`. -/
def determineArea (address : Option String) : String :=
  let a := jsToLower (safeString address)
  if jsIncludes a "liberty" then "Shasta Ortho"
  else if jsIncludes a "bechelli" then "Bechelli Lane"
  else if jsIncludes a "cypress" || jsIncludes a "hartnell" then "Downtown"
  else if jsIncludes a "churn creek" then "Churn Creek"
  else if jsIncludes a "bonnyview" then "South Redding"
  else "Other"

/-- The item-type label: `description.split('-')[0].trim() || "Unknown"`. -/
def typeLabel (description : String) : String :=
  let t := jsTrim (String.mk (description.toList.takeWhile (fun c => c != '-')))
  if t = "" then "Unknown" else t

/-- Add `1` to the value of `k` in a counter object, the key being created
with `0` first when absent (`itemsByType[itemType]++` after the
`if (!itemsByType[itemType])` guard). -/
def bumpCount (l : List (String × Nat)) (k : String) : List (String × Nat) :=
  match l with
  | [] => [(k, 1)]
  | (k', n) :: rest => if k' = k then (k, n + 1) :: rest else (k', n) :: bumpCount rest k

/-- Append `v` to the bucket of `k`, the bucket being created empty first
when absent. -/
def appendAt {β : Type} (l : List (String × List β)) (k : String) (v : β) :
    List (String × List β) :=
  match l with
  | [] => [(k, [v])]
  | (k', vs) :: rest => if k' = k then (k, vs ++ [v]) :: rest else (k', vs) :: appendAt rest k v

/-- The analysis record returned by `analyzeCSVData` (csv-processor.js).
`uniqueCustomers` and `customersWithItems` embed the source's `Set`s as
insertion-ordered duplicate-free lists; `customersByArea` buckets customer
numbers. -/
structure Analysis where
  uniqueCustomers : List String
  customersByArea : List (String × List String)
  areaStats : List (String × Nat)
  itemsByType : List (String × Nat)
  customersWithItems : List String
  totalItems : Nat
deriving DecidableEq, Repr

/-- JS `Set.prototype.add` as insertion into a duplicate-free list. -/
def setAdd (s : List String) (x : String) : List String :=
  if s.contains x then s else s ++ [x]

/-- The per-row step of `analyzeCSVData`: skip a row with falsy
`CustomerNumber`; record the customer; classify the row's address and, when
this customer number is not yet in that area's bucket, add it there and bump
`areaStats`; then take `safeString(row.ItemID) || "unknown"` — which is never
empty — so *every* surviving row increments `totalItems`, marks the customer
as having items, and bumps `itemsByType` under the row's type label. -/
def analyzeRow (a : Analysis) (row : Row) : Analysis :=
  let customerNumber := safeString row.CustomerNumber
  if customerNumber = "" then a
  else
    let a := { a with uniqueCustomers := setAdd a.uniqueCustomers customerNumber }
    let area := determineArea row.Address
    let a :=
      if ((a.customersByArea.lookup area).getD []).contains customerNumber then a
      else { a with customersByArea := appendAt a.customersByArea area customerNumber,
                    areaStats := bumpCount a.areaStats area }
    let itemId := if safeString row.ItemID = "" then "unknown" else safeString row.ItemID
    if itemId = "" then a
    else
      let itemType := typeLabel (safeString row.Description)
      { a with totalItems := a.totalItems + 1,
               customersWithItems := setAdd a.customersWithItems customerNumber,
               itemsByType := bumpCount a.itemsByType itemType }

/-- The six area buckets and zero counters `analyzeCSVData` initializes from
its default `areaClassification` before the pass. -/
def initialAnalysis : Analysis :=
  { uniqueCustomers := []
    customersByArea :=
      [("Shasta Ortho", []), ("Bechelli Lane", []), ("Downtown", []),
       ("Churn Creek", []), ("South Redding", []), ("Other", [])]
    areaStats :=
      [("Shasta Ortho", 0), ("Bechelli Lane", 0), ("Downtown", 0),
       ("Churn Creek", 0), ("South Redding", 0), ("Other", 0)]
    itemsByType := []
    customersWithItems := []
    totalItems := 0 }

/-- `analyzeCSVData(csvData)` (csv-processor.js): the single pass over the
rows. -/
def analyzeCSVData (csvData : List Row) : Analysis :=
  csvData.foldl analyzeRow initialAnalysis

/-- `uniqueCustomerCount` of the analysis (`uniqueCustomers.size`). -/
def Analysis.uniqueCustomerCount (a : Analysis) : Nat :=
  a.uniqueCustomers.length

/-- Sum of the values of a counter object (`sum(areaStats.values())`). -/
def sumCounts (l : List (String × Nat)) : Nat :=
  (l.map (fun kv => kv.2)).sum

/-- An entry of `itemsByType` in optimized-data-processor.js (the pushed
`{customerNumber, accountName, itemId, description, quantity}` object). -/
structure TypeEntry where
  customerNumber : String
  accountName : String
  itemId : String
  description : String
  quantity : Int
deriving DecidableEq, Repr

/-- The aggregate `processCSVData` (optimized-data-processor.js) builds.
`customersByArea` records the customer objects by their identifying number
(the source stores references to the same mutable objects that appear in
`customers`). -/
structure ProcModel where
  customers : List Customer
  customersByArea : List (String × List String)
  itemsByType : List (String × List TypeEntry)
  areaDistribution : List (String × Nat)
  totalItems : Nat
deriving DecidableEq, Repr

/-- The per-row step of `processCSVData` (optimized-data-processor.js,
fallback—chain branch for area detection): skip falsy `CustomerNumber`; on
first sight of a number, create the customer and register it in
`customersByArea`/`areaDistribution`; then, when `safeString(row.ItemID)` is
non-empty, push the item onto the owning customer (the same object everywhere
it is referenced), bump `totalItems` and push a `TypeEntry` under the type
label. -/
def processRow (st : ProcModel) (row : Row) : ProcModel :=
  let customerNumber := safeString row.CustomerNumber
  if customerNumber = "" then st
  else
    let st :=
      if st.customers.any (fun c => c.customerNumber == customerNumber) then st
      else
        let area := determineArea row.Address
        let c : Customer :=
          { customerNumber := customerNumber
            accountName := safeString row.AccountName
            address := safeString row.Address
            area := area
            items := []
            hasItems := false
            completed := false }
        { st with customers := st.customers ++ [c],
                  customersByArea := appendAt st.customersByArea area customerNumber,
                  areaDistribution := bumpCount st.areaDistribution area }
    let itemId := safeString row.ItemID
    if itemId = "" then st
    else
      let quantity := safeNumber row.Quantity
      let description := safeString row.Description
      let item : Item :=
        { itemId := itemId, description := description, quantity := quantity,
          completed := false }
      let accountName :=
        ((st.customers.find? (fun c => c.customerNumber == customerNumber)).map
          (fun c => c.accountName)).getD ""
      { st with
          customers := st.customers.map (fun c =>
            if c.customerNumber == customerNumber then
              { c with items := c.items ++ [item], hasItems := true }
            else c),
          totalItems := st.totalItems + 1,
          itemsByType := appendAt st.itemsByType (typeLabel description)
            { customerNumber := customerNumber, accountName := accountName,
              itemId := itemId, description := description, quantity := quantity } }

/-- `processCSVData(csvData)` (optimized-data-processor.js): the single pass
over the rows, from empty aggregates. -/
def processCSVData (csvData : List Row) : ProcModel :=
  csvData.foldl processRow { customers := [], customersByArea := [], itemsByType := [],
                             areaDistribution := [], totalItems := 0 }

/-- Sum of the bucket sizes of `itemsByType`
(`sum(itemsByType counts)`). -/
def sumBuckets {β : Type} (l : List (String × List β)) : Nat :=
  (l.map (fun kv => kv.2.length)).sum

/-! ## Basic lemmas about the embedded JS primitives -/

theorem truthy_eq_true_iff (v : Option Bool) : truthy v = true ↔ v = some true := by
  cases v with
  | none => simp [truthy]
  | some b => cases b <;> simp [truthy]

theorem setKey_same (m : CheckedMap) (k : String) (v : Option Bool) :
    setKey m k v k = v := by
  simp [setKey]

theorem setKey_other (m : CheckedMap) (k : String) (v : Option Bool) (k' : String)
    (h : k' ≠ k) : setKey m k v k' = m k' := by
  simp [setKey, h]

theorem itemKey_ne_customerNumber (c : Customer) (it : Item) :
    itemKey c it ≠ c.customerNumber := by
  intro h
  have hlen := congrArg String.length h
  simp only [itemKey, String.length_append] at hlen
  have hdash : ("-" : String).length = 1 := rfl
  omega

/-! ## C1 — completion is a two-branch rule -/

/-- C1: for a customer with a non-empty items list, the completion check
reports it complete iff every item's composite key `customerNumber-itemId` is
present-true in the completion map; a strict subset of the item keys (some
item's key not present-true) never marks it complete, and the bare
`customerNumber` key is never consulted (updating or deleting it cannot change
the verdict).  For a customer with an empty items list it is complete iff the
bare `customerNumber` key is present-true. -/
theorem customerCompleted_two_branch (m : CheckedMap) (c : Customer) :
    (c.items ≠ [] →
      (customerCompleted m c = true ↔ ∀ it ∈ c.items, m (itemKey c it) = some true)
      ∧ ((∃ it ∈ c.items, m (itemKey c it) ≠ some true) → customerCompleted m c = false)
      ∧ (∀ v, customerCompleted (setKey m c.customerNumber v) c = customerCompleted m c))
    ∧ (c.items = [] →
      (customerCompleted m c = true ↔ m c.customerNumber = some true)) := by
  constructor
  · intro hne
    have hlen : c.items.length > 0 := List.length_pos.mpr hne
    have hbranch : ∀ m' : CheckedMap,
        customerCompleted m' c
          = (c.items.all (fun it => truthy (m' (itemKey c it)))
              && c.items.any (fun it => truthy (m' (itemKey c it)))) := by
      intro m'
      simp [customerCompleted, hlen]
    refine ⟨?_, ?_, ?_⟩
    · rw [hbranch]
      constructor
      · intro h it hit
        have hall := (Bool.and_eq_true _ _).mp h |>.1
        rw [List.all_eq_true] at hall
        exact (truthy_eq_true_iff _).mp (hall it hit)
      · intro h
        obtain ⟨it₀, hit₀⟩ := List.exists_mem_of_ne_nil c.items hne
        have hall : c.items.all (fun it => truthy (m (itemKey c it))) = true := by
          rw [List.all_eq_true]
          intro it hit
          exact (truthy_eq_true_iff _).mpr (h it hit)
        have hany : c.items.any (fun it => truthy (m (itemKey c it))) = true := by
          rw [List.any_eq_true]
          exact ⟨it₀, hit₀, (truthy_eq_true_iff _).mpr (h it₀ hit₀)⟩
        rw [hall, hany]
        rfl
    · intro ⟨it, hit, hkey⟩
      rw [hbranch]
      have : c.items.all (fun it => truthy (m (itemKey c it))) = false := by
        rw [← Bool.not_eq_true, List.all_eq_true]
        intro hall
        exact hkey ((truthy_eq_true_iff _).mp (hall it hit))
      rw [this]
      rfl
    · intro v
      rw [hbranch, hbranch]
      have hpt : ∀ it : Item,
          setKey m c.customerNumber v (itemKey c it) = m (itemKey c it) := by
        intro it
        exact setKey_other m c.customerNumber v _ (itemKey_ne_customerNumber c it)
      simp only [hpt]
  · intro hempty
    have hlen : ¬ c.items.length > 0 := by simp [hempty]
    simp only [customerCompleted, hlen, if_false]
    exact truthy_eq_true_iff _

/-- Witness for C1 at a concrete customer and map: a one-item customer with
its single item key set is complete, and with an empty map it is not; a
no-items customer is complete exactly when its bare key is set. -/
theorem customerCompleted_two_branch_witness :
    (customerCompleted
        (fun k => if k = "1-B1" then some true else none)
        ⟨"1", "Alpha", "x", "Downtown", [⟨"B1", "widget", 1, false⟩], true, false⟩ = true)
    ∧ (customerCompleted (fun _ => none)
        ⟨"2", "Beta", "y", "Other", [], false, false⟩ = true ↔
          (fun _ : String => (none : Option Bool)) "2" = some true) :=
  ⟨((customerCompleted_two_branch
      (fun k => if k = "1-B1" then some true else none)
      ⟨"1", "Alpha", "x", "Downtown", [⟨"B1", "widget", 1, false⟩], true, false⟩).1
      (by decide)).1.mpr (by decide),
   (customerCompleted_two_branch (fun _ => none)
      ⟨"2", "Beta", "y", "Other", [], false, false⟩).2 (by decide)⟩

/-! ## C10 — toggling is idempotent and key-local -/

/-- C10: for a non-empty `customerNumber`, `toggleItemCheck` applied twice
with the same arguments gives the same completion map as applied once, and a
single application leaves every key other than the one it addresses
(`toggleKey`) unchanged, in presence and in value. -/
theorem toggleItemCheck_idempotent_local (c : String) (i : Option String) (b : Bool)
    (m : CheckedMap) (h : c ≠ "") :
    toggleItemCheck c i b (toggleItemCheck c i b m) = toggleItemCheck c i b m
    ∧ ∀ k, k ≠ toggleKey c i → toggleItemCheck c i b m k = m k := by
  constructor
  · funext k
    simp only [toggleItemCheck, if_neg h]
    by_cases hk : k = toggleKey c i <;> cases b <;> simp [setKey, hk]
  · intro k hk
    simp only [toggleItemCheck, if_neg h]
    cases b <;> simp [setKey, hk]

/-- Witness for C10 at a concrete toggle: checking item `x` of customer `1`
twice equals checking it once, and the unrelated key `2` is untouched. -/
theorem toggleItemCheck_idempotent_local_witness :
    (toggleItemCheck "1" (some "x") true
        (toggleItemCheck "1" (some "x") true (fun _ => none))
      = toggleItemCheck "1" (some "x") true (fun _ => none))
    ∧ toggleItemCheck "1" (some "x") true (fun _ => none) "2" = (fun _ => none) "2" :=
  ⟨(toggleItemCheck_idempotent_local "1" (some "x") true (fun _ => none) (by decide)).1,
   (toggleItemCheck_idempotent_local "1" (some "x") true (fun _ => none) (by decide)).2
     "2" (by decide)⟩

/-! ## C2 — reconciliation on re-import -/

/-- What `importCSV`'s reconciliation actually computes, pointwise: the new
map binds exactly the keys that literally equal the `customerNumber` of some
customer of the new model and were present-true in the old map; every other
key — in particular every item-level composite key — is dropped. -/
theorem reconcileCheckedItems_eq (newCustomers : List Customer) (old : CheckedMap)
    (k : String) :
    reconcileCheckedItems newCustomers old k
      = if (newCustomers.any (fun c => c.customerNumber == k)) && truthy (old k)
        then some true else none := by
  suffices h : ∀ (cs : List Customer) (acc : CheckedMap),
      (cs.foldl
        (fun acc c =>
          if truthy (old c.customerNumber) then setKey acc c.customerNumber (old c.customerNumber)
          else acc)
        acc) k
        = if (cs.any (fun c => c.customerNumber == k)) && truthy (old k)
          then some true else acc k by
    exact h newCustomers (fun _ => none)
  intro cs
  induction cs with
  | nil => intro acc; simp
  | cons c cs ih =>
      intro acc
      rw [List.foldl_cons, ih]
      have hstep : (if truthy (old c.customerNumber) = true
            then setKey acc c.customerNumber (old c.customerNumber) else acc) k
          = if c.customerNumber = k ∧ truthy (old k) = true then old k else acc k := by
        by_cases hck : c.customerNumber = k
        · subst hck
          by_cases hc : truthy (old c.customerNumber) = true
          · simp [hc, setKey]
          · simp [hc]
        · by_cases hc : truthy (old c.customerNumber) = true
          · simp [hc, setKey_other _ _ _ _ (Ne.symm hck), hck]
          · simp [hc, hck]
      rw [hstep]
      by_cases htr : truthy (old k) = true
      · have hval : old k = some true := (truthy_eq_true_iff _).mp htr
        by_cases hany : cs.any (fun c' => c'.customerNumber == k) = true
        · simp [truthy, htr, hany, hval]
        · simp only [Bool.not_eq_true] at hany
          by_cases hck : c.customerNumber = k
          · simp [truthy, htr, hany, hck, hval]
          · simp [truthy, htr, hany, hck, hval]
      · simp only [Bool.not_eq_true] at htr
        simp [htr]

/-- Counterexample to C2 as stated: with an old completion map holding only
the item-level key `"1-x1"` and a new model that still contains customer `"1"`
(with item `x1`), the reconciled map drops the key — although its
`customerNumber` still exists in the new model, so the claim required it to be
carried forward unchanged. -/
theorem reconcileCheckedItems_cex :
    (reconcileCheckedItems
        [⟨"1", "A", "x", "Other", [⟨"x1", "d", 1, false⟩], true, false⟩]
        (fun k => if k = "1-x1" then some true else none)) "1-x1" = none
    ∧ (fun k => if k = "1-x1" then (some true : Option Bool) else none) "1-x1" = some true
    ∧ ([⟨"1", "A", "x", "Other", [⟨"x1", "d", 1, false⟩], true, false⟩] :
        List Customer).any (fun c => c.customerNumber == "1") = true := by
  refine ⟨?_, by decide, by decide⟩
  rfl

/-! ## C8 — export projection -/

/-- The rows `exportToCSV` emits for one customer. -/
def exportRowsFor (m : CheckedMap) (today : String) (c : Customer) : List ExportRow :=
  if c.items.length > 0 then
    c.items.map (fun it =>
      let isCompleted := truthy (m (itemKey c it))
      { CustomerNumber := c.customerNumber
        AccountName := c.accountName
        Address := c.address
        Area := c.area
        ItemID := it.itemId
        Description := it.description
        Quantity := some it.quantity
        Completed := if isCompleted then "Yes" else "No"
        CompletedDate := if isCompleted then today else "" })
  else
    let isCompleted := truthy (m c.customerNumber)
    [{ CustomerNumber := c.customerNumber
       AccountName := c.accountName
       Address := c.address
       Area := c.area
       ItemID := ""
       Description := "No items"
       Quantity := none
       Completed := if isCompleted then "Yes" else "No"
       CompletedDate := if isCompleted then today else "" }]

theorem foldl_append_eq_flatMap {α β : Type} (g : α → List β) :
    ∀ (l : List α) (acc : List β),
      l.foldl (fun a c => a ++ g c) acc = acc ++ l.flatMap g := by
  intro l
  induction l with
  | nil => intro acc; simp
  | cons c cs ih => intro acc; simp [ih]

/-- Amended C8: per customer with a non-empty items list the export emits one
row per item (customer fields, item fields, `Completed` from that item's
composite key), and per customer with no items exactly one row whose `ItemID`
and `Quantity` are blank, whose `Completed` comes from the bare
`customerNumber` key — but whose `Description` is the literal `"No items"`,
not blank.  Consequently the row count is the sum, over customers, of the
item count (or `1` for a no-items customer). -/
theorem exportToCSV_rows (routeData : List Customer) (m : CheckedMap) (today : String) :
    exportToCSV routeData m today = routeData.flatMap (exportRowsFor m today)
    ∧ (exportToCSV routeData m today).length
        = (routeData.map (fun c => if c.items.length > 0 then c.items.length else 1)).sum := by
  have hbody : exportToCSV routeData m today
      = routeData.foldl (fun a c => a ++ exportRowsFor m today c) [] := by
    unfold exportToCSV
    congr 1
    funext a c
    by_cases hc : c.items.length > 0 <;> simp [exportRowsFor, hc]
  have hflat : exportToCSV routeData m today = routeData.flatMap (exportRowsFor m today) := by
    rw [hbody, foldl_append_eq_flatMap]
    simp
  refine ⟨hflat, ?_⟩
  rw [hflat, List.length_flatMap]
  congr 1
  apply List.map_congr_left
  intro c _
  by_cases hc : c.items.length > 0 <;> simp [exportRowsFor, hc]

/-- Counterexample to C8 as stated: a customer with no items produces exactly
one row, but its `Description` field is `"No items"`, not blank as the claim
requires of every item field. -/
theorem exportToCSV_no_items_description_cex :
    (exportToCSV [⟨"2", "B", "y", "Other", [], false, false⟩] (fun _ => none) "").map
        (fun r => r.Description) = ["No items"]
    ∧ (exportToCSV [⟨"2", "B", "y", "Other", [], false, false⟩] (fun _ => none) "").map
        (fun r => r.ItemID) = [""]
    ∧ (exportToCSV [⟨"2", "B", "y", "Other", [], false, false⟩] (fun _ => none) "").map
        (fun r => r.Quantity) = [none]
    ∧ ("No items" : String) ≠ "" := by
  refine ⟨rfl, rfl, rfl, by decide⟩

/-! ## C6 — rule-set import validation -/

/-- Amended C6: `importAreaConfig` fails (returning `false` and leaving the
rule set unchanged) when the argument is not an array, when some entry lacks
a truthy `id` or `name` or an array `patterns`, and when no entry has
`id = "other"`; otherwise it replaces the whole rule set.  The catch-all
requirement it enforces is the presence of an entry with `id = "other"` —
*not* the presence of an entry with empty `patterns`. -/
theorem importAreaConfig_contract (rules : List AreaRule) :
    importAreaConfig rules none = (false, rules)
    ∧ ∀ arr : List ImportEntry,
        (arr.all (fun e => e.id != "" && e.name != "" && e.patterns.isSome) = false →
          importAreaConfig rules (some arr) = (false, rules))
        ∧ (arr.all (fun e => e.id != "" && e.name != "" && e.patterns.isSome) = true →
            arr.any (fun e => e.id == "other") = false →
            importAreaConfig rules (some arr) = (false, rules))
        ∧ (arr.all (fun e => e.id != "" && e.name != "" && e.patterns.isSome) = true →
            arr.any (fun e => e.id == "other") = true →
            importAreaConfig rules (some arr) = (true, arr.map ImportEntry.toRule)) := by
  refine ⟨rfl, fun arr => ⟨?_, ?_, ?_⟩⟩
  · intro hval
    simp [importAreaConfig, hval]
  · intro hval hother
    simp [importAreaConfig, hval, hother]
  · intro hval hother
    simp [importAreaConfig, hval, hother]

/-- Witness for C6 (amended): a concrete malformed import (an entry with an
empty `name`) is rejected and leaves the default rules in place, while a
well-formed import whose only entry has `id = "other"` is accepted and
replaces them. -/
theorem importAreaConfig_contract_witness :
    importAreaConfig defaultAreas
        (some [⟨"x", "", some [], 1, "c", "i"⟩]) = (false, defaultAreas)
    ∧ importAreaConfig defaultAreas
        (some [⟨"other", "Other", some ["z"], 1000, "c", "i"⟩])
      = (true, [⟨"other", "Other", ["z"], 1000, "c", "i"⟩]) :=
  ⟨((importAreaConfig_contract defaultAreas).2 [⟨"x", "", some [], 1, "c", "i"⟩]).1
      (by decide),
   ((importAreaConfig_contract defaultAreas).2
      [⟨"other", "Other", some ["z"], 1000, "c", "i"⟩]).2.2 (by decide) (by decide)⟩

/-- Counterexample to C6 as stated: a rule set in which *every* entry has
non-empty `patterns` is accepted (and installed) as long as some entry has
`id = "other"`; the claimed empty-`patterns` catch-all requirement is not what
the code checks. -/
theorem importAreaConfig_nonempty_patterns_cex :
    (importAreaConfig defaultAreas
        (some [⟨"other", "Other", some ["z"], 1000, "c", "i"⟩])).1 = true
    ∧ ([⟨"other", "Other", some ["z"], 1000, "c", "i"⟩] : List ImportEntry).all
        (fun e => !(e.patterns.getD []).isEmpty) = true
    ∧ (importAreaConfig defaultAreas
        (some [⟨"other", "Other", some ["z"], 1000, "c", "i"⟩])).2 ≠ defaultAreas := by
  refine ⟨rfl, by decide, by decide⟩

/-! ## C3 — which rows contribute items -/

/-- C3, evaluated at the failing input (code bug): for the single row
`{CustomerNumber: "1", AccountName: "A", Address: "X"}` with no `ItemID`,
`analyzeCSVData` (csv-processor.js) counts one item and buckets it under
`"Unknown"` — its `itemId` falls back to `"unknown"` via `|| "unknown"`, so
the `if (itemId)` guard never skips — while `processCSVData`
(optimized-data-processor.js) counts no item at all, as the claim states. -/
theorem analyzeCSVData_counts_empty_itemId :
    (analyzeCSVData [⟨some "1", some "A", some "X", none, none, none⟩]).totalItems = 1
    ∧ (analyzeCSVData [⟨some "1", some "A", some "X", none, none, none⟩]).itemsByType
        = [("Unknown", 1)]
    ∧ (analyzeCSVData [⟨some "1", some "A", some "X", none, none, none⟩]).customersWithItems
        = ["1"]
    ∧ (processCSVData [⟨some "1", some "A", some "X", none, none, none⟩]).totalItems = 0
    ∧ (processCSVData [⟨some "1", some "A", some "X", none, none, none⟩]).itemsByType = [] := by
  refine ⟨by decide, by decide, by decide, by decide, by decide⟩

/-! ## C4 — aggregate consistency of ingestion -/

theorem sumCounts_bumpCount (l : List (String × Nat)) (k : String) :
    sumCounts (bumpCount l k) = sumCounts l + 1 := by
  induction l with
  | nil => simp [bumpCount, sumCounts]
  | cons kv rest ih =>
      by_cases hk : kv.1 = k
      · simp [bumpCount, hk, sumCounts]
        omega
      · simp only [bumpCount]
        rw [if_neg (by simpa using hk)]
        simp only [sumCounts, List.map_cons, List.sum_cons] at ih ⊢
        omega

theorem sumBuckets_appendAt {β : Type} (l : List (String × List β)) (k : String) (v : β) :
    sumBuckets (appendAt l k v) = sumBuckets l + 1 := by
  induction l with
  | nil => simp [appendAt, sumBuckets]
  | cons kv rest ih =>
      by_cases hk : kv.1 = k
      · simp [appendAt, hk, sumBuckets]
        omega
      · simp only [appendAt]
        rw [if_neg (by simpa using hk)]
        simp only [sumBuckets, List.map_cons, List.sum_cons] at ih ⊢
        omega

/-- The single-pass aggregates of `processCSVData`
(optimized-data-processor.js) are consistent on every input: the area
distribution counts sum to the number of customers, and the `itemsByType`
bucket sizes sum to the total item count.  (This is the property C4 claims of
ingestion; `analyzeCSVData` violates its first half, see the C4 theorem.) -/
theorem processCSVData_aggregates_consistent (csvData : List Row) :
    sumCounts (processCSVData csvData).areaDistribution
        = (processCSVData csvData).customers.length
    ∧ sumBuckets (processCSVData csvData).itemsByType = (processCSVData csvData).totalItems := by
  suffices h : ∀ (rows : List Row) (st : ProcModel),
      sumCounts st.areaDistribution = st.customers.length →
      sumBuckets st.itemsByType = st.totalItems →
      sumCounts (rows.foldl processRow st).areaDistribution
          = (rows.foldl processRow st).customers.length
        ∧ sumBuckets (rows.foldl processRow st).itemsByType = (rows.foldl processRow st).totalItems by
    exact h csvData _ (by simp [sumCounts]) (by simp [sumBuckets])
  intro rows
  induction rows with
  | nil => intro st h1 h2; exact ⟨h1, h2⟩
  | cons row rows ih =>
      intro st h1 h2
      rw [List.foldl_cons]
      apply ih
      · unfold processRow
        by_cases hnum : safeString row.CustomerNumber = ""
        · simp only [if_pos hnum]; exact h1
        · rw [if_neg hnum]
          by_cases hseen :
              st.customers.any (fun c => c.customerNumber == safeString row.CustomerNumber) = true
          · simp only [hseen, if_true]
            by_cases hitem : safeString row.ItemID = ""
            · simp only [if_pos hitem]; exact h1
            · rw [if_neg hitem]
              simpa using h1
          · simp only [Bool.not_eq_true] at hseen
            simp only [hseen, Bool.false_eq_true, if_false]
            by_cases hitem : safeString row.ItemID = ""
            · simp only [if_pos hitem]
              simp [sumCounts_bumpCount, h1]
            · rw [if_neg hitem]
              simp [sumCounts_bumpCount, h1]
      · unfold processRow
        by_cases hnum : safeString row.CustomerNumber = ""
        · simp only [if_pos hnum]; exact h2
        · rw [if_neg hnum]
          by_cases hseen :
              st.customers.any (fun c => c.customerNumber == safeString row.CustomerNumber) = true
          · simp only [hseen, if_true]
            by_cases hitem : safeString row.ItemID = ""
            · simp only [if_pos hitem]; exact h2
            · rw [if_neg hitem]
              simp [sumBuckets_appendAt, h2]
          · simp only [Bool.not_eq_true] at hseen
            simp only [hseen, Bool.false_eq_true, if_false]
            by_cases hitem : safeString row.ItemID = ""
            · simp only [if_pos hitem]
              simpa using h2
            · rw [if_neg hitem]
              simp [sumBuckets_appendAt, h2]

/-- C4, evaluated at the failing input (code bug): two rows with the same
`CustomerNumber "1"` but addresses classifying to different areas make
`analyzeCSVData` (csv-processor.js) count the one distinct customer in *two*
area buckets — the sum of `areaStats` is `2` while there is `1` unique
customer — violating the claimed equation, which `processCSVData`
(optimized-data-processor.js) satisfies on the same input. -/
theorem analyzeCSVData_area_double_count :
    sumCounts (analyzeCSVData
        [⟨some "1", some "A", some "liberty st", none, none, none⟩,
         ⟨some "1", some "A", some "bechelli ln", none, none, none⟩]).areaStats = 2
    ∧ (analyzeCSVData
        [⟨some "1", some "A", some "liberty st", none, none, none⟩,
         ⟨some "1", some "A", some "bechelli ln", none, none, none⟩]).uniqueCustomerCount = 1
    ∧ sumCounts (processCSVData
        [⟨some "1", some "A", some "liberty st", none, none, none⟩,
         ⟨some "1", some "A", some "bechelli ln", none, none, none⟩]).areaDistribution
      = (processCSVData
        [⟨some "1", some "A", some "liberty st", none, none, none⟩,
         ⟨some "1", some "A", some "bechelli ln", none, none, none⟩]).customers.length := by
  refine ⟨by decide, by decide, by decide⟩

/-! ## C9 — export of the rule set is a shallow copy -/

/-- Amended C9: `exportAreaConfig` returns a fresh array sharing the rule
objects.  Mutating a rule object that is *not* among the classifier's current
rules never changes classification; the counterexample shows that mutating an
object reachable from the export (which is exactly the internal rule array)
does. -/
theorem classify_unaffected_by_foreign_mutation (st : ClassifierState) (r : Nat)
    (f : AreaRule → AreaRule) (address : Option String) (h : r ∉ st.rules) :
    classifyAddressS (mutateRule st r f) address = classifyAddressS st address := by
  have hrules : currentRules (mutateRule st r f) = currentRules st := by
    apply List.map_congr_left
    intro x hx
    have hxr : x ≠ r := fun hxr => h (hxr ▸ hx)
    simp only [derefRule, mutateRule, List.get?_eq_getElem?]
    rw [List.getElem?_set_ne (fun hrx => hxr hrx.symm)]
  simp only [classifyAddressS, hrules]

/-- Witness for C9 (amended) at a concrete foreign mutation: rewriting the
unreferenced heap slot `99` leaves classification of a Liberty St address
unchanged. -/
theorem classify_unaffected_by_foreign_mutation_witness :
    classifyAddressS
        (mutateRule defaultClassifierState 99 (fun a => { a with patterns := [] }))
        (some "1255 Liberty St")
      = classifyAddressS defaultClassifierState (some "1255 Liberty St") :=
  classify_unaffected_by_foreign_mutation defaultClassifierState 99
    (fun a => { a with patterns := [] }) (some "1255 Liberty St") (by decide)

/-- Counterexample to C9 as stated: the head of the exported array is the
classifier's own first rule object (reference `0`); clearing that object's
`patterns` through the export changes `classifyAddress` for
`"1255 Liberty St"` from the Shasta Ortho rule to the catch-all — the export
is not a deep, mutation-safe copy. -/
theorem exportAreaConfig_shallow_cex :
    (exportAreaConfig defaultClassifierState).head? = some 0
    ∧ classifyAddressS
        (mutateRule defaultClassifierState 0 (fun a => { a with patterns := [] }))
        (some "1255 Liberty St")
      ≠ classifyAddressS defaultClassifierState (some "1255 Liberty St") := by
  refine ⟨rfl, by decide⟩

/-! ## C5 — classification order: ascending priority, stable ties -/

/-- The sort order of `sortedAreas`: non-decreasing priority. -/
def priorityLE (a b : AreaRule) : Prop := a.priority ≤ b.priority

theorem insertRule_eq_takeDrop (x : AreaRule) (l : List AreaRule) :
    insertRule x l
      = l.takeWhile (fun y => y.priority < x.priority)
        ++ x :: l.dropWhile (fun y => y.priority < x.priority) := by
  induction l with
  | nil => simp [insertRule]
  | cons y ys ih =>
      by_cases hy : y.priority < x.priority
      · simp [insertRule, hy, List.takeWhile_cons, List.dropWhile_cons, ih]
      · simp [insertRule, hy, List.takeWhile_cons, List.dropWhile_cons]

theorem mem_insertRule {x y : AreaRule} {l : List AreaRule} :
    y ∈ insertRule x l ↔ y = x ∨ y ∈ l := by
  induction l with
  | nil => simp [insertRule]
  | cons z zs ih =>
      by_cases hz : z.priority < x.priority
      · simp only [insertRule, if_pos hz, List.mem_cons, ih]
        tauto
      · simp only [insertRule, if_neg hz, List.mem_cons]

theorem mem_sortedAreas {y : AreaRule} {l : List AreaRule} :
    y ∈ sortedAreas l ↔ y ∈ l := by
  induction l with
  | nil => simp [sortedAreas]
  | cons x xs ih =>
      show y ∈ insertRule x (sortedAreas xs) ↔ _
      rw [mem_insertRule, ih, List.mem_cons]

theorem pairwise_insertRule {x : AreaRule} {l : List AreaRule}
    (h : l.Pairwise priorityLE) : (insertRule x l).Pairwise priorityLE := by
  induction l with
  | nil => simp [insertRule]
  | cons y ys ih =>
      rcases List.pairwise_cons.mp h with ⟨hy, hys⟩
      by_cases hxy : y.priority < x.priority
      · simp only [insertRule, if_pos hxy]
        refine List.pairwise_cons.mpr ⟨?_, ih hys⟩
        intro z hz
        rcases mem_insertRule.mp hz with rfl | hz'
        · exact le_of_lt hxy
        · exact hy z hz'
      · simp only [insertRule, if_neg hxy]
        refine List.pairwise_cons.mpr ⟨?_, h⟩
        intro z hz
        rcases List.mem_cons.mp hz with rfl | hz'
        · exact not_lt.mp hxy
        · exact le_trans (not_lt.mp hxy) (hy z hz')

theorem pairwise_sortedAreas (l : List AreaRule) : (sortedAreas l).Pairwise priorityLE := by
  induction l with
  | nil => simp [sortedAreas]
  | cons x xs ih => exact pairwise_insertRule ih

theorem priority_le_of_mem_dropWhile {l : List AreaRule} {c : Int}
    (h : l.Pairwise priorityLE) :
    ∀ w ∈ l.dropWhile (fun y => y.priority < c), c ≤ w.priority := by
  induction l with
  | nil => simp
  | cons y ys ih =>
      rcases List.pairwise_cons.mp h with ⟨hy, hys⟩
      by_cases hyc : y.priority < c
      · rw [List.dropWhile_cons, if_pos (by simpa using hyc)]
        exact ih hys
      · rw [List.dropWhile_cons, if_neg (by simpa using hyc)]
        intro w hw
        rcases List.mem_cons.mp hw with rfl | hw'
        · exact not_lt.mp hyc
        · exact le_trans (not_lt.mp hyc) (hy w hw')

/-- The crux of C5: searching the stably-priority-sorted rule list for the
first match is the same as searching the list in insertion order for the
first match of minimal priority `m`. -/
theorem find?_sortedAreas_eq (p : AreaRule → Bool) (m : Int) :
    ∀ l : List AreaRule,
      (∃ r ∈ l, p r = true ∧ r.priority = m) →
      (∀ r ∈ l, p r = true → m ≤ r.priority) →
      (sortedAreas l).find? p = l.find? (fun r => p r && r.priority == m) := by
  intro l
  induction l with
  | nil => rintro ⟨r, hr, _⟩ _; cases hr
  | cons x l ih =>
      intro hex hmin
      have hsorted : (sortedAreas l).Pairwise priorityLE := pairwise_sortedAreas l
      show (insertRule x (sortedAreas l)).find? p = _
      rw [insertRule_eq_takeDrop, List.find?_append]
      by_cases hqx : (p x && x.priority == m) = true
      · have hpx : p x = true := ((Bool.and_eq_true _ _).mp hqx).1
        have hxm : x.priority = m := by
          have h2 := ((Bool.and_eq_true _ _).mp hqx).2
          simpa using h2
        have htwnone :
            ((sortedAreas l).takeWhile (fun y => y.priority < x.priority)).find? p = none := by
          rw [List.find?_eq_none]
          intro y hy hpy
          have hylt : y.priority < x.priority := by
            simpa using List.mem_takeWhile_imp hy
          have hyl : y ∈ l := by
            have hyL : y ∈ sortedAreas l :=
              List.Sublist.mem hy (List.takeWhile_sublist _)
            exact mem_sortedAreas.mp hyL
          have hym : m ≤ y.priority := hmin y (List.mem_cons_of_mem _ hyl) hpy
          omega
        rw [htwnone, List.find?_cons_of_pos _ hpx,
          List.find?_cons_of_pos (p := fun r => p r && r.priority == m) l hqx]
        rfl
      · rw [List.find?_cons_of_neg (p := fun r => p r && r.priority == m) l hqx]
        obtain ⟨w, hw, hpw, hwm⟩ := hex
        have hwl : w ∈ l := by
          rcases List.mem_cons.mp hw with rfl | h'
          · exact absurd (by simp [hpw, hwm]) hqx
          · exact h'
        have hminl : ∀ r ∈ l, p r = true → m ≤ r.priority := fun r hr =>
          hmin r (List.mem_cons_of_mem _ hr)
        have ihl := ih ⟨w, hwl, hpw, hwm⟩ hminl
        have hsplit : sortedAreas l
            = (sortedAreas l).takeWhile (fun y => y.priority < x.priority)
              ++ (sortedAreas l).dropWhile (fun y => y.priority < x.priority) :=
          (List.takeWhile_append_dropWhile _ _).symm
        by_cases hpx : p x = true
        · have hxm : x.priority ≠ m := by
            intro hc
            exact hqx (by simp [hpx, hc])
          have hmlt : m < x.priority :=
            lt_of_le_of_ne (hmin x (List.mem_cons_self x l) hpx) (Ne.symm hxm)
          have hwL : w ∈ sortedAreas l := mem_sortedAreas.mpr hwl
          have hwtw : w ∈ (sortedAreas l).takeWhile (fun y => y.priority < x.priority) := by
            have hsplitmem : w ∈ (sortedAreas l).takeWhile (fun y => y.priority < x.priority)
                ++ (sortedAreas l).dropWhile (fun y => y.priority < x.priority) := by
              rw [← hsplit]; exact hwL
            rcases List.mem_append.mp hsplitmem with h | h
            · exact h
            · exfalso
              have := priority_le_of_mem_dropWhile hsorted w h
              omega
          obtain ⟨z, hz⟩ :
              ∃ z, ((sortedAreas l).takeWhile (fun y => y.priority < x.priority)).find? p
                = some z := by
            cases hfw : ((sortedAreas l).takeWhile (fun y => y.priority < x.priority)).find? p with
            | none =>
                exfalso
                rw [List.find?_eq_none] at hfw
                exact hfw w hwtw hpw
            | some z => exact ⟨z, rfl⟩
          have hLfind : (sortedAreas l).find? p = some z := by
            rw [hsplit, List.find?_append, hz]
            rfl
          rw [hz, ← ihl, hLfind]
          rfl
        · have hor : (sortedAreas l).find? p
              = Option.or
                  (((sortedAreas l).takeWhile (fun y => y.priority < x.priority)).find? p)
                  (((sortedAreas l).dropWhile (fun y => y.priority < x.priority)).find? p) := by
            conv_lhs => rw [hsplit]
            rw [List.find?_append]
          rw [List.find?_cons_of_neg _ hpx, ← ihl, hor]

/-- C5: whenever some rule matches the normalized address, `classifyAddress`
returns the first matching rule in ascending-priority order — with `m` the
minimal priority among matching rules, the result is the first rule of the
rule list (in insertion order) that matches and has priority `m`.  In
particular a matching rule of lower priority beats one of higher priority,
and equal-priority matches are resolved by insertion order. -/
theorem classifyAddress_priority_order (rules : List AreaRule) (address : Option String)
    (m : Int)
    (hex : ∃ r ∈ rules,
      ruleMatches (jsToLower (safeString address)) r = true ∧ r.priority = m)
    (hmin : ∀ r ∈ rules,
      ruleMatches (jsToLower (safeString address)) r = true → m ≤ r.priority) :
    classifyAddress rules address
      = rules.find? (fun r =>
          ruleMatches (jsToLower (safeString address)) r && r.priority == m) := by
  have hfind := find?_sortedAreas_eq
    (fun r => ruleMatches (jsToLower (safeString address)) r) m rules hex hmin
  obtain ⟨z, hz⟩ :
      ∃ z, rules.find? (fun r =>
          ruleMatches (jsToLower (safeString address)) r && r.priority == m) = some z := by
    obtain ⟨w, hw, hpw, hwm⟩ := hex
    cases hf : rules.find? (fun r =>
        ruleMatches (jsToLower (safeString address)) r && r.priority == m) with
    | none =>
        exfalso
        rw [List.find?_eq_none] at hf
        exact hf w hw (by simp [hpw, hwm])
    | some z => exact ⟨z, rfl⟩
  simp only [classifyAddress]
  rw [hfind, hz]

/-- Witness for C5 at a concrete rule set: with the catch-all inserted first
and two equal-priority rules `a` then `b` both matching the address, the
classifier returns `a`, the earlier-inserted of the two minimal-priority
matches. -/
theorem classifyAddress_priority_order_witness :
    classifyAddress
        [⟨"other", "Other", [], 1000, "c", "i"⟩,
         ⟨"a", "A", ["x"], 7, "c", "i"⟩,
         ⟨"b", "B", ["x"], 7, "c", "i"⟩] (some "ax")
      = some ⟨"a", "A", ["x"], 7, "c", "i"⟩ := by
  have h := classifyAddress_priority_order
      [⟨"other", "Other", [], 1000, "c", "i"⟩,
       ⟨"a", "A", ["x"], 7, "c", "i"⟩,
       ⟨"b", "B", ["x"], 7, "c", "i"⟩] (some "ax") 7 (by decide) (by decide)
  rw [h]
  decide

/-! ## C7 — search as a filter -/

theorem contains_iff_mem_str (l : List String) (a : String) :
    l.contains a = true ↔ a ∈ l := by
  simp [List.contains_iff_exists_mem_beq]

theorem mapSet_of_not_contained (v : Customer) :
    ∀ (m : List (String × Customer)) (k : String),
      (m.map Prod.fst).contains k = false → mapSet m k v = m ++ [(k, v)] := by
  intro m
  induction m with
  | nil => intro k _; rfl
  | cons kv rest ih =>
      intro k hk
      simp only [List.map_cons, List.contains_cons, Bool.or_eq_false_iff] at hk
      have hne : kv.1 ≠ k := by
        intro h
        have := hk.1
        simp [h] at this
      simp only [mapSet]
      rw [if_neg hne, ih k (by simpa using hk.2)]
      rfl

theorem mapSet_of_binding_present (v : Customer) :
    ∀ (m : List (String × Customer)) (k : String),
      (∀ x ∈ m, x.1 = k → x.2 = v) → (m.map Prod.fst).contains k = true →
      mapSet m k v = m := by
  intro m
  induction m with
  | nil => intro k _ hk; simp at hk
  | cons kv rest ih =>
      intro k hval hk
      by_cases hne : kv.1 = k
      · simp only [mapSet, if_pos hne]
        have : kv.2 = v := hval kv (List.mem_cons_self kv rest) hne
        rw [← hne, ← this]
      · simp only [mapSet, if_neg hne]
        have hk' : (rest.map Prod.fst).contains k = true := by
          simp only [List.map_cons, List.contains_cons] at hk
          rcases Bool.or_eq_true _ _ |>.mp hk with h | h
          · have hkk : k = kv.1 := by simpa using h
            exact absurd hkk.symm hne
          · exact h
        rw [ih k (fun x hx => hval x (List.mem_cons_of_mem kv hx)) hk']

/-- Behaviour of one `searchItems` pass over the customers, inserting those
satisfying `p` into the JS `Map`: with duplicate-free customer numbers and an
accumulator whose bindings for processed numbers are the customers
themselves, the pass appends exactly the `p`-matching customers whose number
is not yet a key, in their original order. -/
theorem foldl_mapSet_eq (p : Customer → Bool) :
    ∀ (cs : List Customer) (acc : List (String × Customer)),
      (cs.map (fun c => c.customerNumber)).Nodup →
      (∀ c ∈ cs, ∀ x ∈ acc, x.1 = c.customerNumber → x.2 = c) →
      cs.foldl (fun a c => if p c then mapSet a c.customerNumber c else a) acc
        = acc ++ (cs.filter (fun c =>
            p c && !((acc.map Prod.fst).contains c.customerNumber))).map
              (fun c => (c.customerNumber, c)) := by
  intro cs
  induction cs with
  | nil => intro acc _ _; simp
  | cons c cs ih =>
      intro acc hnd hacc
      rw [List.map_cons, List.nodup_cons] at hnd
      rw [List.foldl_cons, List.filter_cons]
      by_cases hp : p c = true
      · by_cases hmem : ((acc.map Prod.fst).contains c.customerNumber) = true
        · have hstep : mapSet acc c.customerNumber c = acc :=
            mapSet_of_binding_present c acc c.customerNumber
              (fun x hx h1 => hacc c (List.mem_cons_self c cs) x hx h1) hmem
          rw [if_pos hp, hstep,
            if_neg (show ¬(p c && !((acc.map Prod.fst).contains c.customerNumber)) = true by
              rw [hp, hmem]; decide)]
          exact ih acc hnd.2 (fun c' hc' => hacc c' (List.mem_cons_of_mem c hc'))
        · have hmem' : ((acc.map Prod.fst).contains c.customerNumber) = false :=
            Bool.not_eq_true _ ▸ hmem
          have hstep : mapSet acc c.customerNumber c = acc ++ [(c.customerNumber, c)] :=
            mapSet_of_not_contained c acc c.customerNumber hmem'
          rw [if_pos hp, hstep,
            if_pos (show (p c && !((acc.map Prod.fst).contains c.customerNumber)) = true by
              rw [hp, hmem']; decide)]
          have hacc' : ∀ c' ∈ cs, ∀ x ∈ acc ++ [(c.customerNumber, c)],
              x.1 = c'.customerNumber → x.2 = c' := by
            intro c' hc' x hx h1
            rcases List.mem_append.mp hx with hxa | hxn
            · exact hacc c' (List.mem_cons_of_mem c hc') x hxa h1
            · exfalso
              rcases List.mem_singleton.mp hxn with rfl
              have hmm : c.customerNumber ∈ cs.map (fun c => c.customerNumber) := by
                have h1' : c.customerNumber = c'.customerNumber := h1
                rw [h1']
                exact List.mem_map_of_mem (fun c => c.customerNumber) hc'
              exact hnd.1 hmm
          rw [ih (acc ++ [(c.customerNumber, c)]) hnd.2 hacc']
          have hfc : cs.filter (fun c' =>
                p c' && !(((acc ++ [(c.customerNumber, c)]).map Prod.fst).contains
                  c'.customerNumber))
              = cs.filter (fun c' =>
                p c' && !((acc.map Prod.fst).contains c'.customerNumber)) := by
            apply List.filter_congr
            intro c' hc'
            have hne : (c.customerNumber == c'.customerNumber) = false := by
              have hnn : c.customerNumber ≠ c'.customerNumber := by
                intro h
                have hmm : c.customerNumber ∈ cs.map (fun c => c.customerNumber) := by
                  rw [h]
                  exact List.mem_map_of_mem (fun c => c.customerNumber) hc'
                exact hnd.1 hmm
              simpa using hnn
            have hnn' : ¬ c'.customerNumber = c.customerNumber := by
              intro h
              have : (c.customerNumber == c'.customerNumber) = true := by simp [h]
              rw [this] at hne
              cases hne
            have hcont : (((acc ++ [(c.customerNumber, c)]).map Prod.fst).contains
                  c'.customerNumber)
                = ((acc.map Prod.fst).contains c'.customerNumber) := by
              rw [Bool.eq_iff_iff, contains_iff_mem_str, contains_iff_mem_str]
              simp [hnn']
            rw [hcont]
          rw [hfc]
          simp
      · rw [if_neg hp,
          if_neg (show ¬(p c && !((acc.map Prod.fst).contains c.customerNumber)) = true by
            rw [Bool.not_eq_true] at hp
            rw [hp]; simp)]
        exact ih acc hnd.2 (fun c' hc' => hacc c' (List.mem_cons_of_mem c hc'))

/-- Amended C7: search behaves as a filter for `searchCustomers`
(data-handler.js): an empty normalized query returns `routeData` itself and
any other query returns `routeData.filter …`, a subsequence in original
order.  `searchItems` (optimized-data-processor.js) also returns the whole
list on an empty query and contains no duplicates, but it returns the
direct-attribute matches first (in original order) followed by the customers
matching only through an owned item (in original order), so a customer that
matches only via an item can be reordered after later direct matches. -/
theorem search_subsequence_contract (customers : List Customer)
    (searchTerm : Option String) :
    (safeString searchTerm = "" →
      searchCustomers customers searchTerm = customers
      ∧ searchItems customers searchTerm = customers)
    ∧ (searchCustomers customers searchTerm).Sublist customers
    ∧ ((customers.map (fun c => c.customerNumber)).Nodup →
        jsToLower (safeString searchTerm) ≠ "" →
        searchItems customers searchTerm
          = customers.filter (searchItemsDirect (jsToLower (safeString searchTerm)))
            ++ customers.filter (fun c =>
                searchItemsByItem (jsToLower (safeString searchTerm)) c
                  && !searchItemsDirect (jsToLower (safeString searchTerm)) c)) := by
  refine ⟨?_, ?_, ?_⟩
  · intro h
    have hlow : jsToLower (safeString searchTerm) = "" := by
      rw [h]; rfl
    constructor
    · simp [searchCustomers, h]
    · simp [searchItems, hlow]
  · by_cases h : safeString searchTerm = ""
    · simp [searchCustomers, h]
    · simp only [searchCustomers, if_neg h]
      exact List.filter_sublist customers
  · intro hnd hne
    have hinj := List.inj_on_of_nodup_map hnd
    simp only [searchItems, if_neg hne]
    rw [foldl_mapSet_eq _ customers [] hnd (by intro c _ x hx; cases hx)]
    have hp1 : customers.filter (fun c =>
          searchItemsDirect (jsToLower (safeString searchTerm)) c
            && !(([] : List (String × Customer)).map Prod.fst).contains c.customerNumber)
        = customers.filter (searchItemsDirect (jsToLower (safeString searchTerm))) := by
      apply List.filter_congr
      intro c _
      simp
    rw [hp1, List.nil_append]
    rw [foldl_mapSet_eq _ customers _ hnd ?hacc]
    case hacc =>
      intro c hc x hx h1
      obtain ⟨c', hc', rfl⟩ := List.mem_map.mp hx
      have hc'mem : c' ∈ customers := List.mem_of_mem_filter hc'
      exact hinj hc'mem hc h1
    have hkeys : ∀ c ∈ customers,
        (((customers.filter (searchItemsDirect (jsToLower (safeString searchTerm)))).map
            (fun c => (c.customerNumber, c))).map Prod.fst).contains c.customerNumber
          = searchItemsDirect (jsToLower (safeString searchTerm)) c := by
      intro c hc
      rw [List.map_map]
      by_cases hd : searchItemsDirect (jsToLower (safeString searchTerm)) c = true
      · rw [hd]
        rw [contains_iff_mem_str]
        exact List.mem_map_of_mem _ (List.mem_filter.mpr ⟨hc, hd⟩)
      · rw [Bool.not_eq_true] at hd
        rw [hd]
        rw [← Bool.not_eq_true, contains_iff_mem_str]
        intro hmem
        obtain ⟨c', hc', h1⟩ := List.mem_map.mp hmem
        have hc'f := List.mem_filter.mp hc'
        have : c' = c := hinj (List.mem_of_mem_filter hc') hc h1
        rw [this] at hc'f
        rw [hc'f.2] at hd
        cases hd
    have hp2 : customers.filter (fun c =>
          searchItemsByItem (jsToLower (safeString searchTerm)) c
            && !(((customers.filter
                  (searchItemsDirect (jsToLower (safeString searchTerm)))).map
                (fun c => (c.customerNumber, c))).map Prod.fst).contains c.customerNumber)
        = customers.filter (fun c =>
            searchItemsByItem (jsToLower (safeString searchTerm)) c
              && !searchItemsDirect (jsToLower (safeString searchTerm)) c) := by
      apply List.filter_congr
      intro c hc
      rw [hkeys c hc]
    rw [hp2]
    simp only [List.map_append, List.map_map]
    have hcomp : ((fun kv : String × Customer => kv.2) ∘ fun c : Customer =>
        (c.customerNumber, c)) = fun c : Customer => c := rfl
    rw [hcomp]
    simp

/-- Witness for C7 (amended) at a concrete model: customer `1` matches
`"widget"` only through its item, customer `2` directly by account name, and
`searchItems` returns the direct match first followed by the item-only
match. -/
theorem search_subsequence_contract_witness :
    searchItems
        [⟨"1", "Alpha", "x", "Downtown", [⟨"B1", "widget", 1, false⟩], true, false⟩,
         ⟨"2", "widget co", "y", "Other", [], false, false⟩] (some "widget")
      = [⟨"2", "widget co", "y", "Other", [], false, false⟩,
         ⟨"1", "Alpha", "x", "Downtown", [⟨"B1", "widget", 1, false⟩], true, false⟩] := by
  have h := (search_subsequence_contract
      [⟨"1", "Alpha", "x", "Downtown", [⟨"B1", "widget", 1, false⟩], true, false⟩,
       ⟨"2", "widget co", "y", "Other", [], false, false⟩] (some "widget")).2.2
      (by decide) (by decide)
  rw [h]
  decide

/-- Counterexample to C7 as stated: in the same model the result of
`searchItems` is not a subsequence of `model.customers` — the item-only match
`1` is moved behind the direct match `2`, so relative order is not
preserved. -/
theorem search_not_subsequence_cex :
    ¬ (searchItems
        [⟨"1", "Alpha", "x", "Downtown", [⟨"B1", "widget", 1, false⟩], true, false⟩,
         ⟨"2", "widget co", "y", "Other", [], false, false⟩] (some "widget")).Sublist
      [⟨"1", "Alpha", "x", "Downtown", [⟨"B1", "widget", 1, false⟩], true, false⟩,
       ⟨"2", "widget co", "y", "Other", [], false, false⟩] := by
  decide

end Route33
